import Mathlib

/-!
Verification of the AI batch-processing core (`internal/processor`, Go).

Shallow embedding of the orchestration engine: the retry-delay policy
(`calculateRetryDelay`), the token-bucket rate limiter (`RateLimiter`),
the usage/cost accounting (`TokenTracker`), the transport-response
classification (`callOpenAI`), the per-item retry loop
(`processItemWithRetry`), the single-prompt path (`ProcessSingleWithWeek`)
and the batch scheduler (`ProcessBatch`).

Modelling conventions:
* Go `time.Duration` is `int64` nanoseconds; it is modelled as `Int`
  together with the explicit two's-complement wrap `wrap64` at the
  operations where Go arithmetic wraps.
* Go `int` token counts are 64-bit; they are modelled as `Int` with the
  explicit `wrap64` at every addition the tracker performs.  `float64`
  dollar amounts are modelled as `ℚ` (the claims under check never
  mention rounding).
* Wall-clock instants (`time.Now`, durations of attempts) do not affect
  any checked claim; `Duration` fields of results are therefore omitted,
  and record timestamps are supplied as explicit `Nat` parameters.
* The network, the JSON decoder and context cancellation are oracles:
  functions supplying, per attempt, the outcome the Go runtime would
  have delivered.  All control flow downstream of those oracles is
  translated from the source.
-/

namespace AIProc

/-! ### Go 64-bit arithmetic -/

/-- Two's-complement wrap of an integer into `int64`
(the representation Go uses for `time.Duration`). -/
def wrap64 (n : Int) : Int := (n + 2 ^ 63) % 2 ^ 64 - 2 ^ 63

/-- Go `1 << uint(k)` evaluated at type `int64`: left shifts wrap, and a
shift count ≥ 64 yields 0 (`wrap64 (2^k)` is exactly that value). -/
def shiftOne64 (k : Nat) : Int := wrap64 (2 ^ k)

/-! ### Configuration (`Config`, part_001 lines 198–225; only the fields
the verified components read) -/

structure Config where
  maxRetries : Nat
  initialRetryDelay : Int
  maxRetryDelay : Int
  exponentialBackoff : Bool
  batchSize : Nat
  maxConcurrent : Nat
  rateLimitPerMin : Nat
  deriving Repr, DecidableEq

/-! ### `calculateRetryDelay` (part_001 lines 731–742)

```go
func (ap *AIProcessor) calculateRetryDelay(attempt int) time.Duration {
    if !ap.config.ExponentialBackoff {
        return ap.config.InitialRetryDelay
    }
    delay := ap.config.InitialRetryDelay * time.Duration(1<<uint(attempt))
    if delay > ap.config.MaxRetryDelay {
        delay = ap.config.MaxRetryDelay
    }
    return delay
}
```
-/

def calculateRetryDelay (cfg : Config) (attempt : Nat) : Int :=
  if !cfg.exponentialBackoff then
    cfg.initialRetryDelay
  else
    let delay := wrap64 (cfg.initialRetryDelay * shiftOne64 attempt)
    if delay > cfg.maxRetryDelay then cfg.maxRetryDelay else delay

/-! ### `RateLimiter` (part_001 lines 236–241, 353–390)

The Go value is a buffered channel of capacity `requestsPerMinute`; the
state is the number of buffered tokens.  `NewRateLimiter` fills the
channel completely.  The refill goroutine performs, on every tick, a
non-blocking send (`select` with `default`): one token is added when the
buffer is below capacity and the send is dropped when it is full.
`Wait` is a channel receive: it can only complete when a token is
buffered, consumes exactly one, and has no error result at all. -/

/-- Token count right after `NewRateLimiter`: the constructor loop sends
`requestsPerMinute` tokens into the fresh channel.  (The pool state is
the number of tokens buffered in the channel, a `Nat`.) -/
def newRateLimiterTokens (requestsPerMinute : Nat) : Nat := requestsPerMinute

/-- One tick of the `refill` goroutine (non-blocking send). -/
def refillTick (cap : Nat) (t : Nat) : Nat :=
  if t < cap then t + 1 else t

/-- One completed `Wait` (channel receive).  `none` means the receive
cannot complete yet — the caller stays blocked; there is no error value. -/
def waitAcquire (t : Nat) : Option Nat :=
  if 0 < t then some (t - 1) else none

inductive RLOp where
  | tick
  | acquire
  deriving Repr, DecidableEq

def rlStep (cap : Nat) (t : Nat) : RLOp → Option Nat
  | .tick => some (refillTick cap t)
  | .acquire => waitAcquire t

/-- Run a sequence of completed events against the token pool. -/
def rlRun (cap : Nat) : List RLOp → Nat → Option Nat
  | [], t => some t
  | op :: ops, t => (rlStep cap t op).bind (rlRun cap ops)

/-! ### `TokenTracker` (part_001 lines 9–119) -/

structure TokenUsage where
  promptTokens : Int
  completionTokens : Int
  totalTokens : Int
  estimatedCost : ℚ
  timestamp : Nat
  deriving Repr, DecidableEq

/-- The Go zero value `TokenUsage{}`. -/
def TokenUsage.zero : TokenUsage := ⟨0, 0, 0, 0, 0⟩

instance : Inhabited TokenUsage := ⟨TokenUsage.zero⟩

/-- `getPricing` (part_001 lines 46–60). -/
def getPricing (model : String) : ℚ × ℚ :=
  if model = "gpt-4o" ∨ model = "gpt-4o-2024-08-06" then (5/2, 10)
  else if model = "gpt-4o-mini" then (3/20, 3/5)
  else if model = "gpt-4-turbo" ∨ model = "gpt-4-turbo-2024-04-09" then (10, 30)
  else if model = "gpt-3.5-turbo" then (1/2, 3/2)
  else (5/2, 10)

structure TokenTracker where
  usageByWeek : String → List TokenUsage
  totalUsage : TokenUsage
  model : String
  inputPricePer1M : ℚ
  outputPricePer1M : ℚ

/-- `NewTokenTracker` (part_001 lines 33–43): empty per-week map, zero
total (`TokenUsage` zero value), pricing from the model table. -/
def NewTokenTracker (model : String) : TokenTracker :=
  { usageByWeek := fun _ => []
    totalUsage := TokenUsage.zero
    model := model
    inputPricePer1M := (getPricing model).1
    outputPricePer1M := (getPricing model).2 }

/-- The `TokenUsage` record built inside `RecordUsage`.  The Go local
`totalTokens := promptTokens + completionTokens` is a 64-bit `int`
addition, so it wraps. -/
def usageRecordOf (inP outP : ℚ) (promptTokens completionTokens : Int)
    (now : Nat) : TokenUsage :=
  { promptTokens := promptTokens
    completionTokens := completionTokens
    totalTokens := wrap64 (promptTokens + completionTokens)
    estimatedCost := (promptTokens : ℚ) * inP / 1000000
      + (completionTokens : ℚ) * outP / 1000000
    timestamp := now }

/-- `RecordUsage` (part_001 lines 63–90): append the record under the
week label and add the counts and cost into the running total.  Every
`+=` on the `int` count fields is wrapping 64-bit arithmetic; the
`float64` cost addition is modelled exactly over `ℚ`. -/
def TokenTracker.RecordUsage (tt : TokenTracker) (weekLabel : String)
    (promptTokens completionTokens : Int) (now : Nat) : TokenTracker :=
  let usage := usageRecordOf tt.inputPricePer1M tt.outputPricePer1M
    promptTokens completionTokens now
  { tt with
    usageByWeek := fun l =>
      if l = weekLabel then tt.usageByWeek weekLabel ++ [usage]
      else tt.usageByWeek l
    totalUsage :=
      { promptTokens := wrap64 (tt.totalUsage.promptTokens + promptTokens)
        completionTokens :=
          wrap64 (tt.totalUsage.completionTokens + completionTokens)
        totalTokens := wrap64 (tt.totalUsage.totalTokens
          + wrap64 (promptTokens + completionTokens))
        estimatedCost := tt.totalUsage.estimatedCost + usage.estimatedCost
        timestamp := tt.totalUsage.timestamp } }

/-- One step of the summing loop of `GetWeekSummary`: adds the four
count/cost fields (the timestamp is never touched).  The three `int`
additions wrap at 64 bits. -/
def addUsage (s u : TokenUsage) : TokenUsage :=
  { promptTokens := wrap64 (s.promptTokens + u.promptTokens)
    completionTokens := wrap64 (s.completionTokens + u.completionTokens)
    totalTokens := wrap64 (s.totalTokens + u.totalTokens)
    estimatedCost := s.estimatedCost + u.estimatedCost
    timestamp := s.timestamp }

/-- The summing loop of `GetWeekSummary`: starts from the zero value
(`var summary TokenUsage`) and folds `addUsage` over the week's records. -/
def sumUsages (l : List TokenUsage) : TokenUsage :=
  l.foldl addUsage TokenUsage.zero

/-- `GetWeekSummary` (part_001 lines 93–111). -/
def TokenTracker.GetWeekSummary (tt : TokenTracker) (weekLabel : String) :
    TokenUsage :=
  let weekUsages := tt.usageByWeek weekLabel
  if weekUsages = [] then TokenUsage.zero else sumUsages weekUsages

/-- `GetTotalSummary` (part_001 lines 114–119). -/
def TokenTracker.GetTotalSummary (tt : TokenTracker) : TokenUsage :=
  tt.totalUsage

/-- One recorded call: week label, prompt tokens, completion tokens,
timestamp. -/
abbrev RecordCall := String × Int × Int × Nat

/-- A finite sequence of `RecordUsage` calls. -/
def runCalls (tt : TokenTracker) (calls : List RecordCall) : TokenTracker :=
  calls.foldl (fun t c => t.RecordUsage c.1 c.2.1 c.2.2.1 c.2.2.2) tt

/-! ### Transport response structures and `callOpenAI`
(part_001 lines 252–305, 745–822)

The request side of `callOpenAI` (building `OpenAIRequest`, JSON
marshalling, `http.NewRequestWithContext`) cannot fail in Go for this
fixed struct shape, constant method and constant URL, so the embedding
starts at the point where the HTTP round trip delivers an outcome.  The
round trip, the body read and the JSON decode are the oracle
`HttpOutcome`; everything after it is translated line by line. -/

/-- Go `Usage` (API token usage statistics). -/
structure Usage where
  promptTokens : Int
  completionTokens : Int
  totalTokens : Int
  deriving Repr, DecidableEq

def Usage.zero : Usage := ⟨0, 0, 0⟩

instance : Inhabited Usage := ⟨Usage.zero⟩

structure Message where
  role : String
  content : String
  deriving Repr, DecidableEq

structure APIError where
  message : String
  type : String
  code : String
  deriving Repr, DecidableEq

structure Choice where
  index : Int
  message : Message
  finishReason : String
  deriving Repr, DecidableEq

/-- Go `OpenAIResponse` (the fields `callOpenAI` reads). -/
structure OpenAIResponse where
  choices : List Choice
  usage : Usage
  error : Option APIError
  deriving Repr, DecidableEq

deriving instance DecidableEq for Except

/-- The Go `error` values produced by the verified components. -/
inductive GoErr where
  /-- `fmt.Errorf("API request failed: %w", err)` — `httpClient.Do` failed. -/
  | apiRequestFailed (msg : String)
  /-- `fmt.Errorf("failed to read response: %w", err)` — `io.ReadAll` failed. -/
  | readFailed (msg : String)
  /-- `fmt.Errorf("failed to parse response: %w", err)` — `json.Unmarshal` failed. -/
  | parseFailed (msg : String)
  /-- `fmt.Errorf("API error: %s (%s)", ...)` — non-nil `Error` object. -/
  | apiError (msg ty : String)
  /-- `fmt.Errorf("API returned status %d: %s", ...)`. -/
  | badStatus (code : Int)
  /-- `fmt.Errorf("no choices in response")`. -/
  | noChoices
  /-- `fmt.Errorf("empty prompt generated")`. -/
  | emptyPrompt
  /-- `ctx.Err()` — the shared cancellation signal fired. -/
  | ctxCanceled
  /-- `fmt.Errorf("failed after %d attempts: %w", n, e)`. -/
  | afterAttempts (n : Nat) (e : GoErr)
  deriving Repr, DecidableEq

/-- Outcome of one HTTP round trip as the Go runtime delivers it to
`callOpenAI`: transport failure, body-read failure, or a status code
with a body that either decodes to an `OpenAIResponse` or does not. -/
inductive HttpOutcome where
  | transportError (msg : String)
  | readError (msg : String)
  | response (statusCode : Int) (body : Option OpenAIResponse)
  deriving Repr, DecidableEq

/-- `callOpenAI` (part_001 lines 785–822), from the HTTP round trip on:
check decode, then the API `error` object, then `status != 200`
(`http.StatusOK`), then an empty `choices` array; otherwise return
`choices[0].Message.Content` verbatim with the reported usage. -/
def callOpenAI (h : HttpOutcome) : Except GoErr (String × Usage) :=
  match h with
  | .transportError m => .error (.apiRequestFailed m)
  | .readError m => .error (.readFailed m)
  | .response _ none => .error (.parseFailed "invalid body")
  | .response statusCode (some apiResp) =>
    match apiResp.error with
    | some e => .error (.apiError e.message e.type)
    | none =>
      if statusCode ≠ 200 then .error (.badStatus statusCode)
      else
        match apiResp.choices with
        | [] => .error .noChoices
        | c :: _ => .ok (c.message.content, apiResp.usage)

/-! ### The per-item retry loop `processItemWithRetry`
(part_001 lines 621–728)

Oracles: `ctxOKAt k` is whether `ctx.Err() == nil` at the check opening
attempt `k`; `waitCancelled k` is whether `ctx.Done()` fires during the
backoff wait that follows a failed attempt `k`; `call k` is the outcome
of the transport call of attempt `k` (in `ProcessBatch` this is
`callOpenAI` applied to the attempt's `HttpOutcome`). -/

structure ItemEnv where
  maxRetries : Nat
  ctxOKAt : Nat → Bool
  waitCancelled : Nat → Bool
  call : Nat → Except GoErr (String × Usage)

/-- Observable side effects of one executor run: completed
`rateLimiter.Wait` acquisitions, transport calls issued, backoff waits
entered, and `RecordUsage` calls made on the token tracker. -/
structure Effects where
  waits : Nat
  calls : Nat
  backoffs : Nat
  recorded : List (String × Int × Int)
  deriving Repr, DecidableEq

def Effects.empty : Effects := ⟨0, 0, 0, []⟩

/-- Go `ProcessResult` (part_001 lines 296–305).  `Input` is the Go
`interface{}` payload (`none` is the zero value `nil`); the wall-clock
`Duration` field is not modelled. -/
structure ProcessResult (α : Type) where
  index : Nat
  input : Option α
  output : String
  success : Bool
  error : Option GoErr
  retries : Nat
  tokenUsage : Usage
  deriving Repr, DecidableEq

/-- The Go zero value of `ProcessResult` (what `make([]ProcessResult, n)`
fills slots with). -/
def ProcessResult.zero (α : Type) : ProcessResult α :=
  { index := 0, input := none, output := "", success := false
    error := none, retries := 0, tokenUsage := Usage.zero }

/-- Loop body of `processItemWithRetry`, one constructor case per exit
point of the Go `for attempt := 0; attempt <= MaxRetries; attempt++`
loop.  `fuel` is the number of loop iterations still permitted
(`maxRetries + 1 - attempt`); `retryCount` and `lastError` are the
mutable locals of the Go function. -/
def processItemGo (env : ItemEnv) {α : Type} (render : α → String)
    (index : Nat) (item : α) :
    Nat → Nat → Nat → Option GoErr → Effects → ProcessResult α × Effects
  | 0, _, retryCount, lastError, eff =>
    -- `attempt > MaxRetries`: all retries exhausted (lines 711–728)
    ({ index := index, input := some item, output := "", success := false
       error := lastError, retries := retryCount, tokenUsage := Usage.zero },
     eff)
  | fuel + 1, attempt, retryCount, lastError, eff =>
    if env.ctxOKAt attempt = false then
      -- `ctx.Err() != nil` before the attempt (lines 628–637)
      ({ index := index, input := some item, output := "", success := false
         error := some .ctxCanceled, retries := retryCount
         tokenUsage := Usage.zero },
       eff)
    else
      -- `ap.rateLimiter.Wait()` (line 640)
      let eff := { eff with waits := eff.waits + 1 }
      -- `prompt := promptTemplate(item)` (lines 643–653)
      if render item = "" then
        ({ index := index, input := some item, output := "", success := false
           error := some .emptyPrompt, retries := 0, tokenUsage := Usage.zero },
         eff)
      else
        -- `output, usage, err := ap.callOpenAI(ctx, prompt)` (line 656)
        let eff := { eff with calls := eff.calls + 1 }
        match env.call attempt with
        | .ok (output, usage) =>
          -- success exit (lines 657–676)
          ({ index := index, input := some item, output := output
             success := true, error := none, retries := retryCount
             tokenUsage := usage },
           eff)
        | .error e =>
          -- `lastError = err; retryCount++` (lines 679–680)
          let retryCount := retryCount + 1
          if attempt < env.maxRetries then
            -- backoff wait, interruptible by ctx.Done() (lines 682–708)
            let eff := { eff with backoffs := eff.backoffs + 1 }
            if env.waitCancelled attempt then
              ({ index := index, input := some item, output := ""
                 success := false, error := some .ctxCanceled
                 retries := retryCount, tokenUsage := Usage.zero },
               eff)
            else
              processItemGo env render index item fuel (attempt + 1)
                retryCount (some e) eff
          else
            processItemGo env render index item fuel (attempt + 1)
              retryCount (some e) eff

/-- `processItemWithRetry` (part_001 lines 621–728): run the loop from
attempt 0 with zeroed locals; the loop admits `maxRetries + 1`
iterations. -/
def processItemWithRetry (env : ItemEnv) {α : Type} (render : α → String)
    (index : Nat) (item : α) : ProcessResult α × Effects :=
  processItemGo env render index item (env.maxRetries + 1) 0 0 none
    Effects.empty

/-! ### `ProcessSingleWithWeek` (part_001 lines 404–450)

```go
ap.rateLimiter.Wait()
for attempt := 0; attempt < ap.config.MaxRetries; attempt++ {
    if attempt > 0 { delay := ...; time.Sleep(delay) }
    response, usage, err = ap.callOpenAI(ctx, fullPrompt)
    if err == nil {
        ap.tokenTracker.RecordUsage(weekLabel, usage.PromptTokens, usage.CompletionTokens)
        break
    }
}
if err != nil { return "", fmt.Errorf("failed after %d attempts: %w", ...) }
return response, nil
```

The loop state is the triple of the Go locals `(response, err)` plus the
accumulated effects; the prompt is the same on every attempt (it is
rebuilt from the same `prompt`/`systemMessage` strings), so the per-call
outcome is the oracle `call attempt`. -/

def processSingleGo (call : Nat → Except GoErr (String × Usage))
    (weekLabel : String) :
    Nat → Nat → String × Option GoErr × Effects →
    String × Option GoErr × Effects
  | 0, _, st => st
  | fuel + 1, attempt, (response, errSt, eff) =>
    -- `if attempt > 0 { time.Sleep(delay) }`
    let eff := if attempt > 0 then { eff with backoffs := eff.backoffs + 1 }
      else eff
    let eff := { eff with calls := eff.calls + 1 }
    match call attempt with
    | .ok (out, usage) =>
      -- record usage, then `break`
      (out, none,
       { eff with recorded := eff.recorded
          ++ [(weekLabel, usage.promptTokens, usage.completionTokens)] })
    | .error e =>
      processSingleGo call weekLabel fuel (attempt + 1) (response, some e, eff)

/-- `ProcessSingleWithWeek`: one rate-limiter acquisition up front, then
the retry loop (`maxRetries` iterations, note `<` not `<=`); a final
non-nil `err` is wrapped as `failed after %d attempts`. -/
def ProcessSingleWithWeek (maxRetries : Nat)
    (call : Nat → Except GoErr (String × Usage)) (weekLabel : String) :
    Except GoErr String × Effects :=
  let st := processSingleGo call weekLabel maxRetries 0
    ("", none, { Effects.empty with waits := 1 })
  match st.2.1 with
  | some e => (.error (.afterAttempts maxRetries e), st.2.2)
  | none => (.ok st.1, st.2.2)

/-! ### `ProcessBatch` (part_001 lines 503–618)

Each spawned goroutine checks `ctx.Err()` (oracle `gctxOK index`), runs
`processItemWithRetry`, and stores its result into its own slot
`results[index]`; slots never alias.  The order in which goroutines
complete their single write is the schedule `sched` — any permutation of
the indices.  Per-item oracles live in `BatchEnv`. -/

structure BatchEnv where
  maxRetries : Nat
  /-- `ctx.Err() == nil` at the goroutine check (lines 547–555), per index. -/
  gctxOK : Nat → Bool
  /-- `ctx.Err() == nil` at the loop check of `processItemWithRetry`,
  per index and attempt. -/
  ctxOKAt : Nat → Nat → Bool
  /-- cancellation during the backoff wait, per index and attempt. -/
  waitCancelled : Nat → Nat → Bool
  /-- transport outcome, per index and attempt. -/
  call : Nat → Nat → Except GoErr (String × Usage)

def BatchEnv.itemEnv (benv : BatchEnv) (index : Nat) : ItemEnv :=
  { maxRetries := benv.maxRetries
    ctxOKAt := benv.ctxOKAt index
    waitCancelled := benv.waitCancelled index
    call := benv.call index }

/-- The value goroutine `index` stores into `results[index]`
(part_001 lines 539–559). -/
def goroutineResult (benv : BatchEnv) {α : Type} (render : α → String)
    (items : List α) (index : Nat) : ProcessResult α :=
  match items[index]? with
  | none => ProcessResult.zero α
  | some item =>
    if benv.gctxOK index = false then
      { index := index, input := some item, output := "", success := false
        error := some .ctxCanceled, retries := 0, tokenUsage := Usage.zero }
    else
      (processItemWithRetry (benv.itemEnv index) render index item).1

/-- The `results` array of `ProcessBatch`: `make([]ProcessResult, len(items))`
(all zero values), then each goroutine writes its own slot, in completion
order `sched`. -/
def processBatchResults (benv : BatchEnv) {α : Type} (render : α → String)
    (items : List α) (sched : List Nat) : List (ProcessResult α) :=
  sched.foldl
    (fun acc i => acc.set i (goroutineResult benv render items i))
    (List.replicate items.length (ProcessResult.zero α))

/-! ### Batch barrier trace model (part_001 lines 519–584)

`ProcessBatch` walks `batchStart` over the input in strides of
`BatchSize`, spawns one goroutine per item of the current batch, and
calls `wg.Wait()` before moving to the next stride.  A run is therefore
the concatenation, batch by batch, of per-batch event traces; within a
batch the interleaving of item events is arbitrary (the scheduler
chooses it), which the model quantifies over. -/

inductive BEvent where
  | start (i : Nat)
  | finish (i : Nat)
  deriving Repr, DecidableEq

def BEvent.item : BEvent → Nat
  | .start i => i
  | .finish i => i

/-- The item indices of batch `k`: `batchStart = B*k`,
`batchEnd = min(B*(k+1), N)` (part_001 lines 521–525). -/
def batchItems (B N k : Nat) : List Nat :=
  (List.range N).filter (fun i => decide (B * k ≤ i ∧ i < B * (k + 1)))

/-- `totalBatches := (len(items) + BatchSize - 1) / BatchSize` (line 520). -/
def totalBatches (B N : Nat) : Nat := (N + B - 1) / B

/-- A legal trace of one batch: it mentions only this batch's items, and
`wg.Wait()` guarantees every item of the batch has finished (reached its
terminal Outcome and stored it) before the trace ends. -/
abbrev validBatchTrace (B N k : Nat) (tr : List BEvent) : Prop :=
  (∀ e ∈ tr, e.item ∈ batchItems B N k) ∧
  (∀ i ∈ batchItems B N k, BEvent.finish i ∈ tr)

/-- The events of the first `k` batches, in program order: batch `k` is
spawned only after `wg.Wait()` returned for batch `k - 1`. -/
def catTraces (trs : Nat → List BEvent) : Nat → List BEvent
  | 0 => []
  | k + 1 => catTraces trs k ++ trs k

/-- The full event trace of a `ProcessBatch` run with per-batch traces
`trs`. -/
def batchRunTrace (B N : Nat) (trs : Nat → List BEvent) : List BEvent :=
  catTraces trs (totalBatches B N)

/-! ## Theorems -/

/-! ### Arithmetic facts about the 64-bit wrap -/

theorem wrap64_eq_self (x : Int) (h1 : -(2 ^ 63) ≤ x) (h2 : x < 2 ^ 63) :
    wrap64 x = x := by
  unfold wrap64
  have h64 : (2 : Int) ^ 64 = 18446744073709551616 := by norm_num
  have h63 : (2 : Int) ^ 63 = 9223372036854775808 := by norm_num
  rw [h64, h63] at *
  have : (x + 9223372036854775808) % 18446744073709551616
      = x + 9223372036854775808 :=
    Int.emod_eq_of_lt (by omega) (by omega)
  omega

theorem wrap64_as_sub (b : Int) : ∃ q, wrap64 b = b - 2 ^ 64 * q :=
  ⟨(b + 2 ^ 63) / 2 ^ 64, by unfold wrap64; rw [Int.emod_def]; ring⟩

theorem wrap64_sub_mul (x k : Int) : wrap64 (x - 2 ^ 64 * k) = wrap64 x := by
  unfold wrap64
  congr 1
  have h : x - 2 ^ 64 * k + 2 ^ 63 = x + 2 ^ 63 + 2 ^ 64 * (-k) := by ring
  rw [h, Int.add_mul_emod_self_left]

theorem wrap64_mul_right (a b : Int) :
    wrap64 (a * wrap64 b) = wrap64 (a * b) := by
  obtain ⟨q, hq⟩ := wrap64_as_sub b
  rw [hq]
  have h : a * (b - 2 ^ 64 * q) = a * b - 2 ^ 64 * (a * q) := by ring
  rw [h, wrap64_sub_mul]

/-- C4, amended: with exponential backoff disabled `calculateRetryDelay`
returns the configured initial delay for every attempt; with it enabled
and **no `int64` overflow** (`initialDelay·2^k < 2^63`, with sane
non-negative delays, `initialDelay ≤ maxDelay < 2^63`), it returns
`min(initialDelay·2^k, maxDelay)`, equals `initialDelay` at attempt 0,
and is monotonically non-decreasing over the overflow-free range.  (The
unrestricted claim is refuted by `calculateRetryDelay_overflow_cex`:
Go's `InitialRetryDelay * time.Duration(1<<uint(attempt))` is wrapping
`int64` arithmetic.) -/
theorem calculateRetryDelay_spec (cfg : Config) (k j : Nat) (hjk : j ≤ k)
    (h0 : 0 ≤ cfg.initialRetryDelay)
    (him : cfg.initialRetryDelay ≤ cfg.maxRetryDelay)
    (hmax : cfg.maxRetryDelay < 2 ^ 63)
    (hov : cfg.initialRetryDelay * 2 ^ k < 2 ^ 63) :
    (cfg.exponentialBackoff = false →
      calculateRetryDelay cfg k = cfg.initialRetryDelay) ∧
    (cfg.exponentialBackoff = true →
      calculateRetryDelay cfg k
          = min (cfg.initialRetryDelay * 2 ^ k) cfg.maxRetryDelay ∧
        calculateRetryDelay cfg 0 = cfg.initialRetryDelay ∧
        calculateRetryDelay cfg j ≤ calculateRetryDelay cfg k) := by
  have hform : ∀ m : Nat, cfg.exponentialBackoff = true →
      cfg.initialRetryDelay * 2 ^ m < 2 ^ 63 →
      calculateRetryDelay cfg m
        = min (cfg.initialRetryDelay * 2 ^ m) cfg.maxRetryDelay := by
    intro m hb hovm
    unfold calculateRetryDelay shiftOne64
    rw [hb]
    simp only [Bool.not_true, Bool.false_eq_true, if_false]
    have hpos : (0 : Int) ≤ cfg.initialRetryDelay * 2 ^ m := by positivity
    rw [wrap64_mul_right,
      wrap64_eq_self _ (le_trans (by norm_num) hpos) hovm]
    rw [min_def]
    split <;> split <;> omega
  have hmono2 : ∀ i₂ : Nat, i₂ ≤ k →
      cfg.initialRetryDelay * 2 ^ i₂ ≤ cfg.initialRetryDelay * 2 ^ k := by
    intro i₂ hi
    exact mul_le_mul_of_nonneg_left
      (pow_le_pow_right₀ (by norm_num) hi) h0
  refine ⟨fun hb => ?_, fun hb => ?_⟩
  · unfold calculateRetryDelay
    rw [hb]
    simp
  · have hovj : cfg.initialRetryDelay * 2 ^ j < 2 ^ 63 :=
      lt_of_le_of_lt (hmono2 j hjk) hov
    have hov0 : cfg.initialRetryDelay * 2 ^ 0 < 2 ^ 63 := by
      have := hmono2 0 (Nat.zero_le k)
      omega
    refine ⟨hform k hb hov, ?_, ?_⟩
    · rw [hform 0 hb hov0]
      simp only [pow_zero, mul_one]
      exact min_eq_left him
    · rw [hform j hb hovj, hform k hb hov]
      exact min_le_min (hmono2 j hjk) le_rfl

/-- The concrete configuration of the overflow counterexample: backoff
enabled, initial delay 2s, max delay 10s (the source defaults), in
nanoseconds as Go stores them. -/
def cfgOverflow : Config :=
  { maxRetries := 3
    initialRetryDelay := 2000000000
    maxRetryDelay := 10000000000
    exponentialBackoff := true
    batchSize := 10
    maxConcurrent := 5
    rateLimitPerMin := 60 }

/-- C4, counterexample to the claim as stated: at attempt 33 the Go
`int64` multiplication overflows, the code returns a *negative* delay
(−1266874889709551616 ns) where `min(initialDelay·2^33, maxDelay)` is
10000000000 ns, and the delay sequence is not monotone
(`delay(3) > delay(33)`). -/
theorem calculateRetryDelay_overflow_cex :
    calculateRetryDelay cfgOverflow 33 = -1266874889709551616 ∧
    min ((2000000000 : Int) * 2 ^ 33) 10000000000 = 10000000000 ∧
    calculateRetryDelay cfgOverflow 33 < calculateRetryDelay cfgOverflow 3 := by
  refine ⟨by decide, by decide, by decide⟩

/-- C4 witness: the amended statement applied to the source defaults
(initial 2s, max 10s, backoff on) at attempts j = 1 ≤ k = 2. -/
theorem calculateRetryDelay_spec_witness :
    calculateRetryDelay cfgOverflow 2
        = min ((2000000000 : Int) * 2 ^ 2) 10000000000 ∧
      calculateRetryDelay cfgOverflow 0 = 2000000000 ∧
      calculateRetryDelay cfgOverflow 1 ≤ calculateRetryDelay cfgOverflow 2 :=
  (calculateRetryDelay_spec cfgOverflow 2 1 (by decide) (by decide)
    (by decide) (by decide) (by decide)).2 rfl

/-! ### C7: the rate limiter's token pool -/

theorem rlRun_le_cap (cap : Nat) :
    ∀ (ops : List RLOp) (t : Nat), t ≤ cap →
      ∀ t', rlRun cap ops t = some t' → t' ≤ cap := by
  intro ops
  induction ops with
  | nil =>
    intro t ht t' h
    rw [rlRun] at h
    injection h with h
    omega
  | cons op rest ih =>
    intro t ht t' h
    rw [rlRun] at h
    cases op with
    | tick =>
      rw [rlStep, Option.some_bind, refillTick] at h
      split at h
      · exact ih _ (by omega) _ h
      · exact ih _ ht _ h
    | acquire =>
      rw [rlStep, waitAcquire] at h
      split at h
      · rw [Option.some_bind] at h
        exact ih _ (by omega) _ h
      · simp at h

/-- C7: the token pool starts full at exactly `capacity`
(= requests-per-minute); a refill tick adds one token below capacity and
is dropped at capacity, so every run of completed tick/acquire events
starting from the full pool stays ≤ capacity; a completed `Wait`
consumes exactly one token, and `Wait` has no error outcome (`waitAcquire`
is `none` — still blocked — exactly when the pool is empty). -/
theorem RateLimiter_spec (cap : Nat) (ops : List RLOp) (s t t' : Nat)
    (hs : s < cap) (ht : 0 < t)
    (hrun : rlRun cap ops (newRateLimiterTokens cap) = some t') :
    newRateLimiterTokens cap = cap ∧
    refillTick cap s = s + 1 ∧
    refillTick cap cap = cap ∧
    (∀ u, u ≤ cap → refillTick cap u ≤ cap) ∧
    waitAcquire t = some (t - 1) ∧
    waitAcquire 0 = none ∧
    t' ≤ cap := by
  refine ⟨rfl, ?_, ?_, ?_, ?_, rfl, ?_⟩
  · rw [refillTick, if_pos hs]
  · rw [refillTick, if_neg (lt_irrefl cap)]
  · intro u hu
    rw [refillTick]
    split <;> omega
  · rw [waitAcquire, if_pos ht]
  · exact rlRun_le_cap cap ops cap le_rfl t' hrun

/-- C7 witness: capacity 2, run `acquire, tick, tick` from the full
pool: `2 → 1 → 2 → 2` (the last tick is dropped at capacity). -/
theorem RateLimiter_spec_witness :
    newRateLimiterTokens 2 = 2 ∧
    refillTick 2 1 = 1 + 1 ∧
    refillTick 2 2 = 2 ∧
    (∀ u, u ≤ 2 → refillTick 2 u ≤ 2) ∧
    waitAcquire 2 = some (2 - 1) ∧
    waitAcquire 0 = none ∧
    2 ≤ 2 :=
  RateLimiter_spec 2 [.acquire, .tick, .tick] 1 2 2
    (by decide) (by decide) (by decide)

/-! ### C8: the token tracker's accounting -/

theorem RecordUsage_fields (tt : TokenTracker) (lbl : String)
    (p c : Int) (n : Nat) :
    (tt.RecordUsage lbl p c n).inputPricePer1M = tt.inputPricePer1M ∧
    (tt.RecordUsage lbl p c n).outputPricePer1M = tt.outputPricePer1M ∧
    (tt.RecordUsage lbl p c n).totalUsage.promptTokens
      = wrap64 (tt.totalUsage.promptTokens + p) ∧
    (tt.RecordUsage lbl p c n).totalUsage.completionTokens
      = wrap64 (tt.totalUsage.completionTokens + c) ∧
    (tt.RecordUsage lbl p c n).totalUsage.totalTokens
      = wrap64 (tt.totalUsage.totalTokens + wrap64 (p + c)) ∧
    ∀ l, (tt.RecordUsage lbl p c n).usageByWeek l
      = if l = lbl then
          tt.usageByWeek lbl
            ++ [usageRecordOf tt.inputPricePer1M tt.outputPricePer1M p c n]
        else tt.usageByWeek l :=
  ⟨rfl, rfl, rfl, rfl, rfl, fun _ => rfl⟩

theorem runCalls_prices : ∀ (calls : List RecordCall) (tt : TokenTracker),
    (runCalls tt calls).inputPricePer1M = tt.inputPricePer1M ∧
    (runCalls tt calls).outputPricePer1M = tt.outputPricePer1M := by
  intro calls
  induction calls with
  | nil => intro tt; exact ⟨rfl, rfl⟩
  | cons cl cls ih =>
    intro tt
    exact ih (tt.RecordUsage cl.1 cl.2.1 cl.2.2.1 cl.2.2.2)

theorem runCalls_week : ∀ (calls : List RecordCall) (tt : TokenTracker)
    (lbl : String),
    (runCalls tt calls).usageByWeek lbl
      = tt.usageByWeek lbl
        ++ (calls.filter fun cl => cl.1 = lbl).map
            (fun cl => usageRecordOf tt.inputPricePer1M tt.outputPricePer1M
              cl.2.1 cl.2.2.1 cl.2.2.2) := by
  intro calls
  induction calls with
  | nil => intro tt lbl; simp [runCalls]
  | cons cl cls ih =>
    intro tt lbl
    have hstep : runCalls tt (cl :: cls)
        = runCalls (tt.RecordUsage cl.1 cl.2.1 cl.2.2.1 cl.2.2.2) cls := rfl
    have hin := (RecordUsage_fields tt cl.1 cl.2.1 cl.2.2.1 cl.2.2.2).1
    have hout := (RecordUsage_fields tt cl.1 cl.2.1 cl.2.2.1 cl.2.2.2).2.1
    rw [hstep, ih]
    rw [((RecordUsage_fields tt cl.1 cl.2.1 cl.2.2.1 cl.2.2.2).2.2.2.2.2) lbl]
    rw [hin, hout]
    by_cases hc : cl.1 = lbl
    · subst hc
      simp [List.filter_cons]
    · have hcl : ¬ (lbl = cl.1) := fun h => hc h.symm
      simp [List.filter_cons, if_neg hcl, hc]

theorem sum_map_add_split (calls : List RecordCall) :
    (calls.map fun cl => cl.2.1 + cl.2.2.1).sum
      = (calls.map fun cl => cl.2.1).sum
        + (calls.map fun cl => cl.2.2.1).sum := by
  induction calls with
  | nil => simp
  | cons cl cls ih =>
    simp only [List.map_cons, List.sum_cons, ih]
    ring

theorem sum_filter_le_sum (P : RecordCall → Bool) (f : RecordCall → Int) :
    ∀ (l : List RecordCall), (∀ x ∈ l, 0 ≤ f x) →
      ((l.filter P).map f).sum ≤ (l.map f).sum := by
  intro l
  induction l with
  | nil => intro _; simp
  | cons x xs ih =>
    intro h
    have hx := h x (List.mem_cons_self x xs)
    have hxs := ih (fun y hy => h y (List.mem_cons_of_mem x hy))
    rw [List.filter_cons]
    split
    · simp only [List.map_cons, List.sum_cons]
      omega
    · simp only [List.map_cons, List.sum_cons]
      omega

theorem single_le_sum_calls (f : RecordCall → Int) :
    ∀ (l : List RecordCall), (∀ x ∈ l, 0 ≤ f x) →
      ∀ x ∈ l, f x ≤ (l.map f).sum := by
  intro l
  induction l with
  | nil =>
    intro _ x hx
    cases hx
  | cons y ys ih =>
    intro h x hx
    have hy := h y (List.mem_cons_self y ys)
    have hys : ∀ z ∈ ys, 0 ≤ f z := fun z hz => h z (List.mem_cons_of_mem y hz)
    have hsum : 0 ≤ (ys.map f).sum := by
      refine List.sum_nonneg ?_
      intro a ha
      obtain ⟨z, hz, rfl⟩ := List.mem_map.1 ha
      exact hys z hz
    rcases List.mem_cons.1 hx with rfl | hx2
    · simp only [List.map_cons, List.sum_cons]
      omega
    · have := ih hys x hx2
      simp only [List.map_cons, List.sum_cons]
      omega

/-- Exact characterization of the running totals when no addition
overflows: every `+=` stays below `2^63` on non-negative counts, so the
wraps are identities and the totals are the mathematical sums. -/
theorem runCalls_total_exact :
    ∀ (calls : List RecordCall) (tt : TokenTracker),
      (∀ cl ∈ calls, 0 ≤ cl.2.1 ∧ 0 ≤ cl.2.2.1) →
      0 ≤ tt.totalUsage.promptTokens →
      0 ≤ tt.totalUsage.completionTokens →
      0 ≤ tt.totalUsage.totalTokens →
      tt.totalUsage.promptTokens
          + (calls.map fun cl => cl.2.1).sum < 2 ^ 63 →
      tt.totalUsage.completionTokens
          + (calls.map fun cl => cl.2.2.1).sum < 2 ^ 63 →
      tt.totalUsage.totalTokens
          + (calls.map fun cl => cl.2.1 + cl.2.2.1).sum < 2 ^ 63 →
      (runCalls tt calls).totalUsage.promptTokens
          = tt.totalUsage.promptTokens + (calls.map fun cl => cl.2.1).sum ∧
      (runCalls tt calls).totalUsage.completionTokens
          = tt.totalUsage.completionTokens
            + (calls.map fun cl => cl.2.2.1).sum ∧
      (runCalls tt calls).totalUsage.totalTokens
          = tt.totalUsage.totalTokens
            + (calls.map fun cl => cl.2.1 + cl.2.2.1).sum := by
  intro calls
  induction calls with
  | nil =>
    intro tt _ _ _ _ _ _ _
    refine ⟨by simp [runCalls], by simp [runCalls], by simp [runCalls]⟩
  | cons cl cls ih =>
    intro tt hnn hp0 hc0 ht0 hpb hcb htb
    have h63 : (2 : Int) ^ 63 = 9223372036854775808 := by norm_num
    have hcl := hnn cl (List.mem_cons_self cl cls)
    have hnn' : ∀ x ∈ cls, 0 ≤ x.2.1 ∧ 0 ≤ x.2.2.1 :=
      fun x hx => hnn x (List.mem_cons_of_mem cl hx)
    have hsp : 0 ≤ (cls.map fun x => x.2.1).sum := by
      refine List.sum_nonneg ?_
      intro a ha
      obtain ⟨y, hy, rfl⟩ := List.mem_map.1 ha
      exact (hnn' y hy).1
    have hsc : 0 ≤ (cls.map fun x => x.2.2.1).sum := by
      refine List.sum_nonneg ?_
      intro a ha
      obtain ⟨y, hy, rfl⟩ := List.mem_map.1 ha
      exact (hnn' y hy).2
    have hst : 0 ≤ (cls.map fun x => x.2.1 + x.2.2.1).sum := by
      refine List.sum_nonneg ?_
      intro a ha
      obtain ⟨y, hy, rfl⟩ := List.mem_map.1 ha
      have := hnn' y hy
      omega
    simp only [List.map_cons, List.sum_cons] at hpb hcb htb ⊢
    rw [h63] at hpb hcb htb
    have hw1 : wrap64 (tt.totalUsage.promptTokens + cl.2.1)
        = tt.totalUsage.promptTokens + cl.2.1 :=
      wrap64_eq_self _ (by rw [h63]; omega) (by rw [h63]; omega)
    have hw2 : wrap64 (tt.totalUsage.completionTokens + cl.2.2.1)
        = tt.totalUsage.completionTokens + cl.2.2.1 :=
      wrap64_eq_self _ (by rw [h63]; omega) (by rw [h63]; omega)
    have hwpc : wrap64 (cl.2.1 + cl.2.2.1) = cl.2.1 + cl.2.2.1 :=
      wrap64_eq_self _ (by rw [h63]; omega) (by rw [h63]; omega)
    have hw3 : wrap64 (tt.totalUsage.totalTokens + wrap64 (cl.2.1 + cl.2.2.1))
        = tt.totalUsage.totalTokens + (cl.2.1 + cl.2.2.1) := by
      rw [hwpc]
      exact wrap64_eq_self _ (by rw [h63]; omega) (by rw [h63]; omega)
    obtain ⟨-, -, hf3, hf4, hf5, -⟩ :=
      RecordUsage_fields tt cl.1 cl.2.1 cl.2.2.1 cl.2.2.2
    obtain ⟨ih1, ih2, ih3⟩ := ih (tt.RecordUsage cl.1 cl.2.1 cl.2.2.1 cl.2.2.2)
      hnn'
      (by rw [hf3, hw1]; omega)
      (by rw [hf4, hw2]; omega)
      (by rw [hf5, hw3]; omega)
      (by rw [hf3, hw1, h63]; omega)
      (by rw [hf4, hw2, h63]; omega)
      (by rw [hf5, hw3, h63]; omega)
    have hstep : runCalls tt (cl :: cls)
        = runCalls (tt.RecordUsage cl.1 cl.2.1 cl.2.2.1 cl.2.2.2) cls := rfl
    refine ⟨?_, ?_, ?_⟩
    · rw [hstep, ih1, hf3, hw1]
      ring
    · rw [hstep, ih2, hf4, hw2]
      ring
    · rw [hstep, ih3, hf5, hw3]
      ring

/-- Exact characterization of `GetWeekSummary`'s summing loop under the
same no-overflow conditions. -/
theorem addUsage_foldl_exact :
    ∀ (l : List TokenUsage) (s : TokenUsage),
      (∀ u ∈ l, 0 ≤ u.promptTokens ∧ 0 ≤ u.completionTokens
        ∧ 0 ≤ u.totalTokens) →
      0 ≤ s.promptTokens → 0 ≤ s.completionTokens → 0 ≤ s.totalTokens →
      s.promptTokens + (l.map fun u => u.promptTokens).sum < 2 ^ 63 →
      s.completionTokens
          + (l.map fun u => u.completionTokens).sum < 2 ^ 63 →
      s.totalTokens + (l.map fun u => u.totalTokens).sum < 2 ^ 63 →
      (l.foldl addUsage s).promptTokens
          = s.promptTokens + (l.map fun u => u.promptTokens).sum ∧
      (l.foldl addUsage s).completionTokens
          = s.completionTokens + (l.map fun u => u.completionTokens).sum ∧
      (l.foldl addUsage s).totalTokens
          = s.totalTokens + (l.map fun u => u.totalTokens).sum := by
  intro l
  induction l with
  | nil =>
    intro s _ _ _ _ _ _ _
    simp
  | cons u us ih =>
    intro s hl hp0 hc0 ht0 hpb hcb htb
    have h63 : (2 : Int) ^ 63 = 9223372036854775808 := by norm_num
    have hu := hl u (List.mem_cons_self u us)
    have hl' : ∀ v ∈ us, 0 ≤ v.promptTokens ∧ 0 ≤ v.completionTokens
        ∧ 0 ≤ v.totalTokens := fun v hv => hl v (List.mem_cons_of_mem u hv)
    have hsp : 0 ≤ (us.map fun v => v.promptTokens).sum := by
      refine List.sum_nonneg ?_
      intro a ha
      obtain ⟨v, hv, rfl⟩ := List.mem_map.1 ha
      exact (hl' v hv).1
    have hsc : 0 ≤ (us.map fun v => v.completionTokens).sum := by
      refine List.sum_nonneg ?_
      intro a ha
      obtain ⟨v, hv, rfl⟩ := List.mem_map.1 ha
      exact (hl' v hv).2.1
    have hst : 0 ≤ (us.map fun v => v.totalTokens).sum := by
      refine List.sum_nonneg ?_
      intro a ha
      obtain ⟨v, hv, rfl⟩ := List.mem_map.1 ha
      exact (hl' v hv).2.2
    simp only [List.map_cons, List.sum_cons] at hpb hcb htb ⊢
    rw [h63] at hpb hcb htb
    have ha1 : (addUsage s u).promptTokens
        = s.promptTokens + u.promptTokens := by
      show wrap64 (s.promptTokens + u.promptTokens) = _
      exact wrap64_eq_self _ (by rw [h63]; omega) (by rw [h63]; omega)
    have ha2 : (addUsage s u).completionTokens
        = s.completionTokens + u.completionTokens := by
      show wrap64 (s.completionTokens + u.completionTokens) = _
      exact wrap64_eq_self _ (by rw [h63]; omega) (by rw [h63]; omega)
    have ha3 : (addUsage s u).totalTokens = s.totalTokens + u.totalTokens := by
      show wrap64 (s.totalTokens + u.totalTokens) = _
      exact wrap64_eq_self _ (by rw [h63]; omega) (by rw [h63]; omega)
    obtain ⟨ih1, ih2, ih3⟩ := ih (addUsage s u) hl'
      (by rw [ha1]; omega)
      (by rw [ha2]; omega)
      (by rw [ha3]; omega)
      (by rw [ha1, h63]; omega)
      (by rw [ha2, h63]; omega)
      (by rw [ha3, h63]; omega)
    simp only [List.foldl_cons]
    refine ⟨?_, ?_, ?_⟩
    · rw [ih1, ha1]
      ring
    · rw [ih2, ha2]
      ring
    · rw [ih3, ha3]
      ring

theorem sumUsages_fields_exact (l : List TokenUsage)
    (hl : ∀ u ∈ l, 0 ≤ u.promptTokens ∧ 0 ≤ u.completionTokens
      ∧ 0 ≤ u.totalTokens)
    (hp : (l.map fun u => u.promptTokens).sum < 2 ^ 63)
    (hc : (l.map fun u => u.completionTokens).sum < 2 ^ 63)
    (ht : (l.map fun u => u.totalTokens).sum < 2 ^ 63) :
    (sumUsages l).promptTokens = (l.map fun u => u.promptTokens).sum ∧
    (sumUsages l).completionTokens
      = (l.map fun u => u.completionTokens).sum ∧
    (sumUsages l).totalTokens = (l.map fun u => u.totalTokens).sum := by
  obtain ⟨h1, h2, h3⟩ := addUsage_foldl_exact l TokenUsage.zero hl
    (by simp [TokenUsage.zero]) (by simp [TokenUsage.zero])
    (by simp [TokenUsage.zero])
    (by simpa [TokenUsage.zero] using hp)
    (by simpa [TokenUsage.zero] using hc)
    (by simpa [TokenUsage.zero] using ht)
  unfold sumUsages
  rw [h1, h2, h3]
  refine ⟨?_, ?_, ?_⟩ <;> simp [TokenUsage.zero]

/-- C8, amended: the tracker's count fields are Go 64-bit `int`s, so
its additions wrap; provided every recorded count is non-negative and
the grand total of prompt plus completion tokens stays below `2^63` (no
`int64` overflow), `GetTotalSummary` returns prompt, completion and
total token counts equal to the sums of `p`, `c` and `p + c` over all
`RecordUsage(label, p, c)` calls, and `GetWeekSummary(label)` folds
exactly the records made under that label (its per-week record list is
precisely those calls' records, in order, and its counts are their
sums), returning the zero-valued `TokenUsage` for a label never
recorded.  (The unconditional claim is refuted by
`TokenTracker_overflow_cex`.) -/
theorem TokenTracker_summary_spec (model : String) (calls : List RecordCall)
    (lbl : String)
    (hnn : ∀ cl ∈ calls, 0 ≤ cl.2.1 ∧ 0 ≤ cl.2.2.1)
    (hbound : (calls.map fun cl => cl.2.1).sum
        + (calls.map fun cl => cl.2.2.1).sum < 2 ^ 63) :
    (runCalls (NewTokenTracker model) calls).GetTotalSummary.promptTokens
        = (calls.map fun cl => cl.2.1).sum ∧
    (runCalls (NewTokenTracker model) calls).GetTotalSummary.completionTokens
        = (calls.map fun cl => cl.2.2.1).sum ∧
    (runCalls (NewTokenTracker model) calls).GetTotalSummary.totalTokens
        = (calls.map fun cl => cl.2.1 + cl.2.2.1).sum ∧
    (runCalls (NewTokenTracker model) calls).usageByWeek lbl
        = (calls.filter fun cl => cl.1 = lbl).map
            (fun cl => usageRecordOf (getPricing model).1 (getPricing model).2
              cl.2.1 cl.2.2.1 cl.2.2.2) ∧
    ((runCalls (NewTokenTracker model) calls).GetWeekSummary lbl).promptTokens
        = ((calls.filter fun cl => cl.1 = lbl).map fun cl => cl.2.1).sum ∧
    ((runCalls (NewTokenTracker model) calls).GetWeekSummary lbl).completionTokens
        = ((calls.filter fun cl => cl.1 = lbl).map fun cl => cl.2.2.1).sum ∧
    ((runCalls (NewTokenTracker model) calls).GetWeekSummary lbl).totalTokens
        = ((calls.filter fun cl => cl.1 = lbl).map
            fun cl => cl.2.1 + cl.2.2.1).sum ∧
    ((∀ cl ∈ calls, ¬ cl.1 = lbl) →
      (runCalls (NewTokenTracker model) calls).GetWeekSummary lbl
        = TokenUsage.zero) := by
  have h63 : (2 : Int) ^ 63 = 9223372036854775808 := by norm_num
  have hsp : 0 ≤ (calls.map fun cl => cl.2.1).sum := by
    refine List.sum_nonneg ?_
    intro a ha
    obtain ⟨y, hy, rfl⟩ := List.mem_map.1 ha
    exact (hnn y hy).1
  have hsc : 0 ≤ (calls.map fun cl => cl.2.2.1).sum := by
    refine List.sum_nonneg ?_
    intro a ha
    obtain ⟨y, hy, rfl⟩ := List.mem_map.1 ha
    exact (hnn y hy).2
  have hsplit := sum_map_add_split calls
  have hbound' := hbound
  rw [h63] at hbound'
  have hz : (NewTokenTracker model).totalUsage = TokenUsage.zero := rfl
  obtain ⟨ht1, ht2, ht3⟩ := runCalls_total_exact calls (NewTokenTracker model)
    hnn
    (by rw [hz]; simp [TokenUsage.zero])
    (by rw [hz]; simp [TokenUsage.zero])
    (by rw [hz]; simp [TokenUsage.zero])
    (by rw [hz]; simp only [TokenUsage.zero]; rw [h63]; omega)
    (by rw [hz]; simp only [TokenUsage.zero]; rw [h63]; omega)
    (by rw [hz]; simp only [TokenUsage.zero]; rw [hsplit, h63]; omega)
  rw [hz] at ht1 ht2 ht3
  have hweek := runCalls_week calls (NewTokenTracker model) lbl
  have hnilw : (NewTokenTracker model).usageByWeek lbl = [] := rfl
  have hinP : (NewTokenTracker model).inputPricePer1M = (getPricing model).1 :=
    rfl
  have houtP : (NewTokenTracker model).outputPricePer1M
      = (getPricing model).2 := rfl
  rw [hnilw, hinP, houtP, List.nil_append] at hweek
  have hif : ∀ l : List TokenUsage,
      (if l = [] then TokenUsage.zero else sumUsages l) = sumUsages l := by
    intro l
    cases l with
    | nil => simp [sumUsages]
    | cons a l2 => simp
  have hsummary : (runCalls (NewTokenTracker model) calls).GetWeekSummary lbl
      = sumUsages ((calls.filter fun cl => cl.1 = lbl).map
          (fun cl => usageRecordOf (getPricing model).1 (getPricing model).2
            cl.2.1 cl.2.2.1 cl.2.2.2)) := by
    unfold TokenTracker.GetWeekSummary
    rw [hweek]
    exact hif _
  -- per-call wrap identities for the stored record totals
  have hper : ∀ cl ∈ calls,
      wrap64 (cl.2.1 + cl.2.2.1) = cl.2.1 + cl.2.2.1 := by
    intro cl hcl
    have h1 := (hnn cl hcl).1
    have h2 := (hnn cl hcl).2
    have hle1 : cl.2.1 ≤ (calls.map fun x => x.2.1).sum :=
      single_le_sum_calls (fun x => x.2.1) calls
        (fun x hx => (hnn x hx).1) cl hcl
    have hle2 : cl.2.2.1 ≤ (calls.map fun x => x.2.2.1).sum :=
      single_le_sum_calls (fun x => x.2.2.1) calls
        (fun x hx => (hnn x hx).2) cl hcl
    exact wrap64_eq_self _ (by rw [h63]; omega) (by rw [h63]; omega)
  -- the fields of the filtered record list
  have hmm1 : ((calls.filter fun cl => cl.1 = lbl).map
        (fun cl => usageRecordOf (getPricing model).1 (getPricing model).2
          cl.2.1 cl.2.2.1 cl.2.2.2)).map (fun u => u.promptTokens)
      = (calls.filter fun cl => cl.1 = lbl).map fun cl => cl.2.1 := by
    rw [List.map_map]
    rfl
  have hmm2 : ((calls.filter fun cl => cl.1 = lbl).map
        (fun cl => usageRecordOf (getPricing model).1 (getPricing model).2
          cl.2.1 cl.2.2.1 cl.2.2.2)).map (fun u => u.completionTokens)
      = (calls.filter fun cl => cl.1 = lbl).map fun cl => cl.2.2.1 := by
    rw [List.map_map]
    rfl
  have hmm3 : ((calls.filter fun cl => cl.1 = lbl).map
        (fun cl => usageRecordOf (getPricing model).1 (getPricing model).2
          cl.2.1 cl.2.2.1 cl.2.2.2)).map (fun u => u.totalTokens)
      = (calls.filter fun cl => cl.1 = lbl).map
          fun cl => cl.2.1 + cl.2.2.1 := by
    rw [List.map_map]
    refine List.map_congr_left ?_
    intro cl hcl
    exact hper cl (List.mem_of_mem_filter hcl)
  -- bounds on the filtered sums
  have hfle1 := sum_filter_le_sum (fun cl => cl.1 = lbl) (fun cl => cl.2.1)
    calls (fun x hx => (hnn x hx).1)
  have hfle2 := sum_filter_le_sum (fun cl => cl.1 = lbl) (fun cl => cl.2.2.1)
    calls (fun x hx => (hnn x hx).2)
  have hfle3 := sum_filter_le_sum (fun cl => cl.1 = lbl)
    (fun cl => cl.2.1 + cl.2.2.1) calls
    (fun x hx => by
      have h := hnn x hx
      show (0 : Int) ≤ x.2.1 + x.2.2.1
      omega)
  have hrec : ∀ u ∈ (calls.filter fun cl => cl.1 = lbl).map
      (fun cl => usageRecordOf (getPricing model).1 (getPricing model).2
        cl.2.1 cl.2.2.1 cl.2.2.2),
      0 ≤ u.promptTokens ∧ 0 ≤ u.completionTokens ∧ 0 ≤ u.totalTokens := by
    intro u hu
    obtain ⟨cl, hcl, rfl⟩ := List.mem_map.1 hu
    have hmem := List.mem_of_mem_filter hcl
    have h1 := (hnn cl hmem).1
    have h2 := (hnn cl hmem).2
    refine ⟨h1, h2, ?_⟩
    show 0 ≤ wrap64 (cl.2.1 + cl.2.2.1)
    rw [hper cl hmem]
    omega
  obtain ⟨hs1, hs2, hs3⟩ := sumUsages_fields_exact
    ((calls.filter fun cl => cl.1 = lbl).map
      (fun cl => usageRecordOf (getPricing model).1 (getPricing model).2
        cl.2.1 cl.2.2.1 cl.2.2.2))
    hrec
    (by rw [hmm1, h63]; omega)
    (by rw [hmm2, h63]; omega)
    (by rw [hmm3, h63]; rw [hsplit] at hfle3; omega)
  refine ⟨by rw [TokenTracker.GetTotalSummary, ht1]; simp [TokenUsage.zero],
    by rw [TokenTracker.GetTotalSummary, ht2]; simp [TokenUsage.zero],
    by rw [TokenTracker.GetTotalSummary, ht3]; simp [TokenUsage.zero],
    hweek, ?_, ?_, ?_, ?_⟩
  · rw [hsummary, hs1, hmm1]
  · rw [hsummary, hs2, hmm2]
  · rw [hsummary, hs3, hmm3]
  · intro hnone
    have hfil : (calls.filter fun cl => cl.1 = lbl) = [] := by
      rw [List.filter_eq_nil_iff]
      intro cl hcl
      simpa using hnone cl hcl
    rw [hsummary, hfil]
    rfl

/-- C8, counterexample to the claim as stated: a single
`RecordUsage("w1", 2^62, 2^62)` call makes the Go `int` addition
`promptTokens + completionTokens` overflow: both the grand total and the
week summary report `totalTokens = -2^63` instead of the mathematical
sum `2^63`. -/
theorem TokenTracker_overflow_cex :
    (runCalls (NewTokenTracker "gpt-4o")
        [("w1", 2 ^ 62, 2 ^ 62, 0)]).GetTotalSummary.totalTokens
      = -2 ^ 63 ∧
    ((runCalls (NewTokenTracker "gpt-4o")
        [("w1", 2 ^ 62, 2 ^ 62, 0)]).GetWeekSummary "w1").totalTokens
      = -2 ^ 63 ∧
    ¬ ((2 : Int) ^ 62 + 2 ^ 62 = -2 ^ 63) := by
  refine ⟨by decide, by decide, by decide⟩

/-- The concrete call sequence of the C8 witness. -/
def demoCalls : List RecordCall := [("w1", 3, 4, 0), ("w2", 5, 6, 1)]

/-- C8 witness: the amended theorem applied to a concrete model and two
small (overflow-free) calls under two different labels, evaluated on a
recorded and an unseen label. -/
theorem TokenTracker_summary_spec_witness :
    (runCalls (NewTokenTracker "gpt-4o") demoCalls).GetTotalSummary.promptTokens
        = 8 ∧
    ((runCalls (NewTokenTracker "gpt-4o") demoCalls).GetWeekSummary "w1").totalTokens
        = 7 ∧
    (runCalls (NewTokenTracker "gpt-4o") demoCalls).GetWeekSummary "w3"
        = TokenUsage.zero := by
  refine ⟨?_, ?_, ?_⟩
  · have h := (TokenTracker_summary_spec "gpt-4o" demoCalls "w1"
      (by decide) (by decide)).1
    rw [h]
    decide
  · have h := (TokenTracker_summary_spec "gpt-4o" demoCalls "w1"
      (by decide) (by decide)).2.2.2.2.2.2.1
    rw [h]
    decide
  · exact (TokenTracker_summary_spec "gpt-4o" demoCalls "w3"
      (by decide) (by decide)).2.2.2.2.2.2.2 (by decide)

/-! ### Lemmas about the per-item retry loop -/

theorem processItemGo_index (env : ItemEnv) {α : Type} (render : α → String)
    (index : Nat) (item : α) :
    ∀ (fuel attempt rc : Nat) (le : Option GoErr) (eff : Effects),
      (processItemGo env render index item fuel attempt rc le eff).1.index
        = index := by
  intro fuel
  induction fuel with
  | zero => intro attempt rc le eff; rfl
  | succ n ih =>
    intro attempt rc le eff
    simp only [processItemGo]
    split
    · rfl
    · split
      · rfl
      · split
        · rfl
        · split
          · split
            · rfl
            · exact ih _ _ _ _
          · exact ih _ _ _ _

theorem processItemGo_retries_le (env : ItemEnv) {α : Type}
    (render : α → String) (index : Nat) (item : α) :
    ∀ (fuel attempt rc : Nat) (le : Option GoErr) (eff : Effects),
      (processItemGo env render index item fuel attempt rc le eff).1.retries
        ≤ rc + fuel := by
  intro fuel
  induction fuel with
  | zero => intro attempt rc le eff; simp [processItemGo]
  | succ n ih =>
    intro attempt rc le eff
    simp only [processItemGo]
    split
    · simp
    · split
      · simp
      · split
        · simp
        · split
          · split
            · simp <;> omega
            · exact le_trans (ih _ _ _ _) (by omega)
          · exact le_trans (ih _ _ _ _) (by omega)

theorem processItemGo_recorded (env : ItemEnv) {α : Type}
    (render : α → String) (index : Nat) (item : α) :
    ∀ (fuel attempt rc : Nat) (le : Option GoErr) (eff : Effects),
      (processItemGo env render index item fuel attempt rc le eff).2.recorded
        = eff.recorded := by
  intro fuel
  induction fuel with
  | zero => intro attempt rc le eff; rfl
  | succ n ih =>
    intro attempt rc le eff
    simp only [processItemGo]
    split
    · rfl
    · split
      · rfl
      · split
        · rfl
        · split
          · split
            · rfl
            · rw [ih _ _ _ _]
          · rw [ih _ _ _ _]

theorem processItemGo_backoffs (env : ItemEnv) {α : Type}
    (render : α → String) (index : Nat) (item : α) :
    ∀ (fuel attempt rc : Nat) (le : Option GoErr) (eff : Effects),
      attempt + fuel = env.maxRetries + 1 →
      (processItemGo env render index item fuel attempt rc le eff).2.backoffs
        ≤ eff.backoffs + (fuel - 1) := by
  intro fuel
  induction fuel with
  | zero => intro attempt rc le eff hinv; simp [processItemGo]
  | succ n ih =>
    intro attempt rc le eff hinv
    simp only [processItemGo]
    split
    · simp
    · split
      · simp
      · split
        · simp
        · split
          · next hlt =>
            have hn : 1 ≤ n := by omega
            split
            · simp <;> omega
            · exact le_trans (ih _ _ _ _ (by omega)) (by simp <;> omega)
          · exact le_trans (ih _ _ _ _ (by omega)) (by simp <;> omega)

theorem processItemGo_allfail (env : ItemEnv) {α : Type}
    (render : α → String) (index : Nat) (item : α) (ef : Nat → GoErr)
    (hcall : ∀ k, env.call k = .error (ef k))
    (hctx : ∀ k, env.ctxOKAt k = true)
    (hwc : ∀ k, env.waitCancelled k = false)
    (hprompt : ¬ render item = "") :
    ∀ (fuel attempt rc : Nat) (le : Option GoErr) (eff : Effects),
      0 < fuel →
      (processItemGo env render index item fuel attempt rc le eff).1
        = { index := index, input := some item, output := ""
            success := false, error := some (ef (attempt + fuel - 1))
            retries := rc + fuel, tokenUsage := Usage.zero } := by
  intro fuel
  induction fuel with
  | zero => intro attempt rc le eff h; exact absurd h (lt_irrefl 0)
  | succ n ih =>
    intro attempt rc le eff _
    simp only [processItemGo, hctx, hcall, hwc, hprompt]
    simp only [Bool.true_eq_false, if_false, if_neg hprompt]
    rcases Nat.eq_zero_or_pos n with hn | hn
    · subst hn
      split
      · simp [processItemGo]
      · simp [processItemGo]
    · have h1 : attempt + 1 + n - 1 = attempt + (n + 1) - 1 := by omega
      have h2 : rc + 1 + n = rc + (n + 1) := by omega
      split
      · rw [if_neg (by simp : ¬ (false = true)), ih _ _ _ _ hn, h1, h2]
      · rw [ih _ _ _ _ hn, h1, h2]

/-! ### C2: the retries field of the terminal Outcome -/

/-- C2, amended: the `Retries` field of the terminal Outcome never
exceeds `maxRetries + 1` (not `maxRetries`: the Go loop increments
`retryCount` after the *last* failed attempt as well), the number of
backoff waits never exceeds `maxRetries`, and for an item whose every
transport attempt fails the Outcome has `success = false`,
`retries = maxRetries + 1`, and carries the last underlying error
(the error of attempt `maxRetries`).  The claim's `retries = 2` for
`maxRetries = 2` is refuted by `retries_exceeds_maxRetries_cex`. -/
theorem processItemWithRetry_retries_spec (env : ItemEnv) {α : Type}
    (render : α → String) (index : Nat) (item : α) :
    (processItemWithRetry env render index item).1.retries
        ≤ env.maxRetries + 1 ∧
    (processItemWithRetry env render index item).2.backoffs
        ≤ env.maxRetries ∧
    (∀ ef : Nat → GoErr,
      (∀ k, env.call k = Except.error (ef k)) →
      (∀ k, env.ctxOKAt k = true) →
      (∀ k, env.waitCancelled k = false) →
      ¬ render item = "" →
      (processItemWithRetry env render index item).1.success = false ∧
      (processItemWithRetry env render index item).1.retries
          = env.maxRetries + 1 ∧
      (processItemWithRetry env render index item).1.error
          = some (ef env.maxRetries)) := by
  refine ⟨?_, ?_, ?_⟩
  · have h := processItemGo_retries_le env render index item
      (env.maxRetries + 1) 0 0 none Effects.empty
    simpa [processItemWithRetry] using h
  · have h := processItemGo_backoffs env render index item
      (env.maxRetries + 1) 0 0 none Effects.empty (by omega)
    simpa [processItemWithRetry, Effects.empty] using h
  · intro ef hcall hctx hwc hprompt
    have h := processItemGo_allfail env render index item ef hcall hctx hwc
      hprompt (env.maxRetries + 1) 0 0 none Effects.empty (by omega)
    refine ⟨?_, ?_, ?_⟩ <;> simp [processItemWithRetry, h]

/-- The all-attempts-fail environment with `maxRetries = 2` used by the
C2 counterexample and witness. -/
def envAllFail : ItemEnv :=
  { maxRetries := 2
    ctxOKAt := fun _ => true
    waitCancelled := fun _ => false
    call := fun _ => Except.error GoErr.noChoices }

/-- C2, counterexample to the claim as stated: with `maxRetries = 2` and
every transport attempt failing, the terminal Outcome has
`retries = 3 > 2` (and carries the last error), because `retryCount` is
incremented once per failed attempt over `maxRetries + 1` attempts. -/
theorem retries_exceeds_maxRetries_cex :
    envAllFail.maxRetries = 2 ∧
    (processItemWithRetry envAllFail (fun _ : Unit => "p") 0 ()).1.success
        = false ∧
    (processItemWithRetry envAllFail (fun _ : Unit => "p") 0 ()).1.retries
        = 3 ∧
    (processItemWithRetry envAllFail (fun _ : Unit => "p") 0 ()).1.error
        = some GoErr.noChoices := by
  refine ⟨rfl, by decide, by decide, by decide⟩

/-- C2 witness: the amended bound and the all-fail scenario evaluated at
`maxRetries = 2`. -/
theorem processItemWithRetry_retries_spec_witness :
    (processItemWithRetry envAllFail (fun _ : Unit => "p") 0 ()).1.retries
        ≤ 3 ∧
    (processItemWithRetry envAllFail (fun _ : Unit => "p") 0 ()).2.backoffs
        ≤ 2 ∧
    ((processItemWithRetry envAllFail (fun _ : Unit => "p") 0 ()).1.success
          = false ∧
      (processItemWithRetry envAllFail (fun _ : Unit => "p") 0 ()).1.retries
          = 3 ∧
      (processItemWithRetry envAllFail (fun _ : Unit => "p") 0 ()).1.error
          = some (GoErr.noChoices)) := by
  have h := processItemWithRetry_retries_spec envAllFail
    (fun _ : Unit => "p") 0 ()
  exact ⟨h.1, h.2.1,
    h.2.2 (fun _ => GoErr.noChoices) (fun _ => rfl) (fun _ => rfl)
      (fun _ => rfl) (by decide)⟩

/-! ### C9 and C10: the empty rendered prompt -/

/-- C9: if the render function returns the empty string for an item, the
item's Outcome is an immediate terminal failure with `success = false`
and `retries = 0`, and no transport call is ever made for it (this also
covers the case where the shared context is already cancelled at the
first loop check, which likewise terminates with `retries = 0` and no
transport call). -/
theorem emptyPrompt_terminal_spec (env : ItemEnv) {α : Type}
    (render : α → String) (index : Nat) (item : α)
    (h : render item = "") :
    (processItemWithRetry env render index item).1.success = false ∧
    (processItemWithRetry env render index item).1.retries = 0 ∧
    (processItemWithRetry env render index item).2.calls = 0 := by
  simp only [processItemWithRetry, processItemGo]
  split
  · exact ⟨rfl, rfl, rfl⟩
  · exact ⟨rfl, rfl, rfl⟩

/-- The environment of the C9 witness: render always returns `""`. -/
def envEmptyRender : ItemEnv :=
  { maxRetries := 2
    ctxOKAt := fun _ => true
    waitCancelled := fun _ => false
    call := fun _ => Except.ok ("unused", Usage.zero) }

/-- C9 witness: a concrete item whose render returns `""`. -/
theorem emptyPrompt_terminal_spec_witness :
    (processItemWithRetry envEmptyRender (fun _ : Unit => "") 0 ()).1.success
        = false ∧
    (processItemWithRetry envEmptyRender (fun _ : Unit => "") 0 ()).1.retries
        = 0 ∧
    (processItemWithRetry envEmptyRender (fun _ : Unit => "") 0 ()).2.calls
        = 0 :=
  emptyPrompt_terminal_spec envEmptyRender (fun _ : Unit => "") 0 () rfl

/-- C10: in the per-item retry loop the rate-limiter token is acquired
*before* the rendered prompt is validated (`rateLimiter.Wait()` on line
640 precedes `promptTemplate(item)` on line 643), so an item whose
render returns the empty string still consumes exactly one token from
the pool even though no transport call is made. -/
theorem token_acquired_before_validation_spec (env : ItemEnv) {α : Type}
    (render : α → String) (index : Nat) (item : α)
    (h : render item = "") (hctx : env.ctxOKAt 0 = true) :
    (processItemWithRetry env render index item).2.waits = 1 ∧
    (processItemWithRetry env render index item).2.calls = 0 ∧
    (processItemWithRetry env render index item).1.error
        = some GoErr.emptyPrompt ∧
    (processItemWithRetry env render index item).1.retries = 0 := by
  simp only [processItemWithRetry, processItemGo, hctx]
  rw [if_neg (by simp : ¬ (true = false)), if_pos h]
  exact ⟨rfl, rfl, rfl, rfl⟩

/-- The environment of the C10 witness. -/
def envTokenBeforeValidate : ItemEnv :=
  { maxRetries := 3
    ctxOKAt := fun _ => true
    waitCancelled := fun _ => false
    call := fun _ => Except.error GoErr.noChoices }

/-- C10 witness: the empty-render item consumes exactly one token. -/
theorem token_acquired_before_validation_spec_witness :
    (processItemWithRetry envTokenBeforeValidate
        (fun _ : Unit => "") 0 ()).2.waits = 1 ∧
    (processItemWithRetry envTokenBeforeValidate
        (fun _ : Unit => "") 0 ()).2.calls = 0 ∧
    (processItemWithRetry envTokenBeforeValidate
        (fun _ : Unit => "") 0 ()).1.error = some GoErr.emptyPrompt ∧
    (processItemWithRetry envTokenBeforeValidate
        (fun _ : Unit => "") 0 ()).1.retries = 0 :=
  token_acquired_before_validation_spec envTokenBeforeValidate
    (fun _ : Unit => "") 0 () rfl rfl

/-! ### C3: recording usage on successful transport calls -/

theorem processSingleGo_firstSuccess
    (call : Nat → Except GoErr (String × Usage)) (lbl : String) (k : Nat)
    (out : String) (u : Usage) (ej : Nat → GoErr)
    (hfail : ∀ j, j < k → call j = Except.error (ej j))
    (hok : call k = Except.ok (out, u)) :
    ∀ (fuel attempt : Nat) (resp : String) (errSt : Option GoErr)
      (eff : Effects), attempt ≤ k → k < attempt + fuel →
      (processSingleGo call lbl fuel attempt (resp, errSt, eff)).1 = out ∧
      (processSingleGo call lbl fuel attempt (resp, errSt, eff)).2.1 = none ∧
      (processSingleGo call lbl fuel attempt (resp, errSt, eff)).2.2.recorded
        = eff.recorded ++ [(lbl, u.promptTokens, u.completionTokens)] := by
  intro fuel
  induction fuel with
  | zero =>
    intro attempt resp errSt eff h1 h2
    omega
  | succ n ih =>
    intro attempt resp errSt eff h1 h2
    by_cases hak : attempt = k
    · subst hak
      simp only [processSingleGo, hok]
      split <;> simp
    · have hlt : attempt < k := by omega
      simp only [processSingleGo, hfail attempt hlt]
      split
      · exact ⟨(ih _ _ _ _ (by omega) (by omega)).1,
          (ih _ _ _ _ (by omega) (by omega)).2.1,
          (ih _ _ _ _ (by omega) (by omega)).2.2⟩
      · exact ⟨(ih _ _ _ _ (by omega) (by omega)).1,
          (ih _ _ _ _ (by omega) (by omega)).2.1,
          (ih _ _ _ _ (by omega) (by omega)).2.2⟩

/-- C3, amended: `ProcessSingleWithWeek` records the successful call's
prompt and completion token counts in the usage tracker, but
`processItemWithRetry` — the per-item executor `ProcessBatch` runs —
never calls `RecordUsage` at all: a batch item's usage appears only in
its Outcome's `TokenUsage` field.  (The claim's batch half is refuted by
`batch_success_not_recorded_cex`.) -/
theorem usageRecording_spec (maxRetries k : Nat)
    (call : Nat → Except GoErr (String × Usage)) (lbl : String)
    (out : String) (u : Usage) (ej : Nat → GoErr)
    (hk : k < maxRetries)
    (hfail : ∀ j, j < k → call j = Except.error (ej j))
    (hok : call k = Except.ok (out, u)) :
    (ProcessSingleWithWeek maxRetries call lbl).1 = Except.ok out ∧
    (ProcessSingleWithWeek maxRetries call lbl).2.recorded
      = [(lbl, u.promptTokens, u.completionTokens)] ∧
    ∀ (env : ItemEnv) (α : Type) (render : α → String) (index : Nat)
      (item : α),
      (processItemWithRetry env render index item).2.recorded = [] := by
  obtain ⟨h1, h2, h3⟩ := processSingleGo_firstSuccess call lbl k out u ej
    hfail hok maxRetries 0 "" none { Effects.empty with waits := 1 }
    (Nat.zero_le k) (by omega)
  refine ⟨?_, ?_, ?_⟩
  · simp only [ProcessSingleWithWeek]
    rw [h2, h1]
  · simp only [ProcessSingleWithWeek]
    rw [h2]
    simpa [Effects.empty] using h3
  · intro env α render index item
    have h := processItemGo_recorded env render index item
      (env.maxRetries + 1) 0 0 none Effects.empty
    simpa [processItemWithRetry, Effects.empty] using h

/-- The environment of the C3 counterexample: the batch executor's
transport call succeeds immediately with usage (3, 4, 7). -/
def envBatchSuccess : ItemEnv :=
  { maxRetries := 2
    ctxOKAt := fun _ => true
    waitCancelled := fun _ => false
    call := fun _ => Except.ok ("out", ⟨3, 4, 7⟩) }

/-- C3, counterexample to the claim as stated: a batch item succeeds on
its first transport call with prompt/completion tokens (3, 4), yet the
executor makes no `RecordUsage` call — the tracker is left untouched. -/
theorem batch_success_not_recorded_cex :
    (processItemWithRetry envBatchSuccess (fun _ : Unit => "p") 0 ()).1.success
        = true ∧
    (processItemWithRetry envBatchSuccess
        (fun _ : Unit => "p") 0 ()).1.tokenUsage = ⟨3, 4, 7⟩ ∧
    (processItemWithRetry envBatchSuccess
        (fun _ : Unit => "p") 0 ()).2.recorded = [] := by
  refine ⟨by decide, by decide, by decide⟩

/-- The transport oracle of the C3 witness: attempt 0 fails, attempt 1
succeeds with usage (5, 6, 11). -/
def demoSingleCall (j : Nat) : Except GoErr (String × Usage) :=
  if j = 0 then Except.error GoErr.noChoices else Except.ok ("res", ⟨5, 6, 11⟩)

/-- C3 witness: the amended statement at `maxRetries = 3` with one
failure before success; the single path records exactly (5, 6) under
the label, and a concrete batch run records nothing. -/
theorem usageRecording_spec_witness :
    (ProcessSingleWithWeek 3 demoSingleCall "w1").1 = Except.ok "res" ∧
    (ProcessSingleWithWeek 3 demoSingleCall "w1").2.recorded
      = [("w1", 5, 6)] ∧
    ∀ (env : ItemEnv) (α : Type) (render : α → String) (index : Nat)
      (item : α),
      (processItemWithRetry env render index item).2.recorded = [] :=
  usageRecording_spec 3 1 demoSingleCall "w1" "res" ⟨5, 6, 11⟩
    (fun _ => GoErr.noChoices) (by decide) (by decide) (by decide)

/-! ### C5: classification of transport responses -/

/-- C5, amended: `callOpenAI` returns an error if and only if the HTTP
round trip itself fails, the body cannot be read or parsed, the parsed
body carries an `error` object, the status is **not exactly 200**
(`http.StatusOK` — not "not 2xx": see `callOpenAI_status201_cex`), or
`choices` is empty; otherwise it returns `choices[0].message.content`
verbatim together with the reported usage. -/
theorem callOpenAI_spec (h : HttpOutcome) :
    (∀ (statusCode : Int) (apiResp : OpenAIResponse) (c : Choice)
        (cs : List Choice),
      h = HttpOutcome.response statusCode (some apiResp) →
      apiResp.error = none → statusCode = 200 → apiResp.choices = c :: cs →
      callOpenAI h = Except.ok (c.message.content, apiResp.usage)) ∧
    ((∃ e, callOpenAI h = Except.error e) ↔
      ∀ (statusCode : Int) (apiResp : OpenAIResponse),
        h = HttpOutcome.response statusCode (some apiResp) →
        apiResp.error ≠ none ∨ statusCode ≠ 200 ∨ apiResp.choices = []) := by
  cases h with
  | transportError m =>
    refine ⟨fun sc resp c cs heq => absurd heq (by simp), ?_⟩
    constructor
    · intro _ sc resp heq
      exact absurd heq (by simp)
    · intro _
      exact ⟨GoErr.apiRequestFailed m, rfl⟩
  | readError m =>
    refine ⟨fun sc resp c cs heq => absurd heq (by simp), ?_⟩
    constructor
    · intro _ sc resp heq
      exact absurd heq (by simp)
    · intro _
      exact ⟨GoErr.readFailed m, rfl⟩
  | response status body =>
    cases body with
    | none =>
      refine ⟨fun sc resp c cs heq => ?_, ?_⟩
      · injection heq with h1 h2
        exact absurd h2 (by simp)
      · constructor
        · intro _ sc resp heq
          injection heq with h1 h2
          exact absurd h2 (by simp)
        · intro _
          exact ⟨GoErr.parseFailed "invalid body", rfl⟩
    | some r =>
      refine ⟨fun sc resp c cs heq he hs hc => ?_, ?_, ?_⟩
      · injection heq with h1 h2
        injection h2 with h2
        subst h2
        subst h1
        subst hs
        simp [callOpenAI, he, hc]
      · intro hee sc resp heq
        obtain ⟨e, he⟩ := hee
        injection heq with h1 h2
        injection h2 with h2
        subst h2
        subst h1
        by_contra hcon
        push_neg at hcon
        obtain ⟨he1, hs1, hc1⟩ := hcon
        subst hs1
        cases hch : r.choices with
        | nil => exact hc1 hch
        | cons c cs =>
          have hok : callOpenAI (HttpOutcome.response 200 (some r))
              = Except.ok (c.message.content, r.usage) := by
            simp [callOpenAI, he1, hch]
          rw [hok] at he
          simp at he
      · intro hcond
        rcases hcond status r rfl with h1 | h2 | h3
        · cases herr2 : r.error with
          | none => exact absurd herr2 h1
          | some e =>
            exact ⟨GoErr.apiError e.message e.type, by simp [callOpenAI, herr2]⟩
        · cases herr2 : r.error with
          | some e =>
            exact ⟨GoErr.apiError e.message e.type, by simp [callOpenAI, herr2]⟩
          | none =>
            exact ⟨GoErr.badStatus status, by simp [callOpenAI, herr2, h2]⟩
        · cases herr2 : r.error with
          | some e =>
            exact ⟨GoErr.apiError e.message e.type, by simp [callOpenAI, herr2]⟩
          | none =>
            by_cases hs2 : status = (200 : Int)
            · exact ⟨GoErr.noChoices, by simp [callOpenAI, herr2, hs2, h3]⟩
            · exact ⟨GoErr.badStatus status, by simp [callOpenAI, herr2, hs2]⟩

/-- The first (and only) choice of the well-formed response used by the
C5 counterexample and witness. -/
def goodChoice : Choice :=
  { index := 0
    message := { role := "assistant", content := "hello" }
    finishReason := "stop" }

/-- A fully well-formed decoded response body: no error object, one
choice, usage (1, 2, 3). -/
def goodResp : OpenAIResponse :=
  { choices := [goodChoice]
    usage := ⟨1, 2, 3⟩
    error := none }

/-- C5, counterexample to the claim as stated: HTTP status 201 *is* 2xx,
the body decodes, carries no error object and has a non-empty `choices`
array, yet `callOpenAI` returns an error, because the code compares
against `http.StatusOK` (exactly 200), not against the 2xx class. -/
theorem callOpenAI_status201_cex :
    callOpenAI (HttpOutcome.response 201 (some goodResp))
        = Except.error (GoErr.badStatus 201) ∧
    (200 : Int) ≤ 201 ∧ (201 : Int) < 300 ∧
    goodResp.error = none ∧ goodResp.choices ≠ [] := by
  refine ⟨by decide, by decide, by decide, by decide, by decide⟩

/-- C5 witness: the success path of the amended statement evaluated on
the well-formed response at status 200. -/
theorem callOpenAI_spec_witness :
    callOpenAI (HttpOutcome.response 200 (some goodResp))
        = Except.ok (goodChoice.message.content, goodResp.usage) :=
  (callOpenAI_spec (HttpOutcome.response 200 (some goodResp))).1
    200 goodResp goodChoice [] rfl rfl rfl rfl

/-! ### C1: index alignment of the batch result array -/

theorem foldl_set_length {β : Type} (f : Nat → β) :
    ∀ (sched : List Nat) (acc : List β),
      (sched.foldl (fun a j => a.set j (f j)) acc).length = acc.length := by
  intro sched
  induction sched with
  | nil => intro acc; rfl
  | cons j rest ih =>
    intro acc
    simp only [List.foldl_cons]
    rw [ih, List.length_set]

theorem foldl_set_getElem {β : Type} (f : Nat → β) :
    ∀ (sched : List Nat) (acc : List β) (i : Nat), i < acc.length →
      (sched.foldl (fun a j => a.set j (f j)) acc)[i]?
        = if i ∈ sched then some (f i) else acc[i]? := by
  intro sched
  induction sched with
  | nil => intro acc i hi; simp
  | cons j rest ih =>
    intro acc i hi
    simp only [List.foldl_cons]
    rw [ih _ i (by rw [List.length_set]; exact hi)]
    by_cases hmem : i ∈ rest
    · simp [hmem, List.mem_cons]
    · by_cases hij : i = j
      · subst hij
        simp [hmem, List.getElem?_set_eq_of_lt _ hi]
      · have hne : (acc.set j (f j))[i]? = acc[i]? :=
          List.getElem?_set_ne (fun hh => hij hh.symm)
        simp [hmem, hij, hne, List.mem_cons]

theorem goroutineResult_index (benv : BatchEnv) {α : Type}
    (render : α → String) (items : List α) (i : Nat)
    (hi : i < items.length) :
    (goroutineResult benv render items i).index = i := by
  unfold goroutineResult
  cases hget : items[i]? with
  | none =>
    rw [List.getElem?_eq_getElem hi] at hget
    exact absurd hget (by simp)
  | some item =>
    dsimp only
    split
    · rfl
    · exact processItemGo_index (benv.itemEnv i) render i item _ _ _ _ _

theorem processBatchResults_eq_map (benv : BatchEnv) {α : Type}
    (render : α → String) (items : List α) (sched : List Nat)
    (hperm : sched.Perm (List.range items.length)) :
    processBatchResults benv render items sched
      = (List.range items.length).map (goroutineResult benv render items) := by
  have hmem : ∀ i, i ∈ sched ↔ i < items.length := by
    intro i
    rw [hperm.mem_iff, List.mem_range]
  apply List.ext_getElem?
  intro i
  by_cases hi : i < items.length
  · rw [processBatchResults,
      foldl_set_getElem _ sched _ i (by simpa using hi),
      if_pos ((hmem i).2 hi), List.getElem?_map, List.getElem?_range hi]
    rfl
  · push_neg at hi
    rw [processBatchResults]
    rw [List.getElem?_eq_none (by simpa [foldl_set_length] using hi),
      List.getElem?_eq_none (by simpa using hi)]

/-- C1: for every input list of length N (and any per-item transport /
cancellation behavior), `ProcessBatch` returns a result array of length
N with `result[i].Index = i` for every `i < N`, and the assembled array
is the same for every order `sched` in which the concurrent goroutines
complete their slot writes. -/
theorem ProcessBatch_indexAligned (benv : BatchEnv) {α : Type}
    (render : α → String) (items : List α) (sched sched2 : List Nat)
    (hperm : sched.Perm (List.range items.length))
    (hperm2 : sched2.Perm (List.range items.length)) :
    (processBatchResults benv render items sched).length = items.length ∧
    (∀ i, i < items.length →
      ((processBatchResults benv render items sched)[i]?).map
          (fun r => r.index) = some i) ∧
    processBatchResults benv render items sched
      = processBatchResults benv render items sched2 := by
  have h1 := processBatchResults_eq_map benv render items sched hperm
  have h2 := processBatchResults_eq_map benv render items sched2 hperm2
  refine ⟨?_, ?_, ?_⟩
  · rw [h1]
    simp
  · intro i hi
    rw [h1, List.getElem?_map, List.getElem?_range hi]
    simp [goroutineResult_index benv render items i hi]
  · rw [h1, h2]

/-- Per-item behavior of the C1 witness: everything succeeds on the
first attempt. -/
def demoBatchEnv : BatchEnv :=
  { maxRetries := 1
    gctxOK := fun _ => true
    ctxOKAt := fun _ _ => true
    waitCancelled := fun _ _ => false
    call := fun i _ => Except.ok (toString i, ⟨1, 1, 2⟩) }

/-- C1 witness: a two-item batch whose goroutines complete in reversed
order writes the same index-aligned array as the in-order completion. -/
theorem ProcessBatch_indexAligned_witness :
    (processBatchResults demoBatchEnv (fun s : String => s)
        ["a", "b"] [1, 0]).length = 2 ∧
    (∀ i, i < (["a", "b"] : List String).length →
      ((processBatchResults demoBatchEnv (fun s : String => s)
          ["a", "b"] [1, 0])[i]?).map (fun r => r.index) = some i) ∧
    processBatchResults demoBatchEnv (fun s : String => s) ["a", "b"] [1, 0]
      = processBatchResults demoBatchEnv (fun s : String => s)
          ["a", "b"] [0, 1] := by
  have h := ProcessBatch_indexAligned demoBatchEnv (fun s : String => s)
    ["a", "b"] [1, 0] [0, 1] (by decide) (by decide)
  exact ⟨h.1, h.2.1, h.2.2⟩

/-! ### C6: the synchronization barrier between consecutive batches -/

theorem mem_batchItems (B N k i : Nat) :
    i ∈ batchItems B N k ↔ i < N ∧ B * k ≤ i ∧ i < B * (k + 1) := by
  simp [batchItems, List.mem_filter, List.mem_range]

theorem batchItems_eq_div (B N x m : Nat) (hB : 1 ≤ B) (hx : x < N) :
    x ∈ batchItems B N m ↔ m = x / B := by
  rw [mem_batchItems]
  have hB0 : 0 < B := hB
  constructor
  · rintro ⟨-, h1, h2⟩
    have hle : m ≤ x / B := (Nat.le_div_iff_mul_le hB0).2 (by rw [Nat.mul_comm]; exact h1)
    have hlt : x / B < m + 1 :=
      (Nat.div_lt_iff_lt_mul hB0).2 (by rw [Nat.mul_comm]; exact h2)
    omega
  · rintro rfl
    have h1 : x / B * B ≤ x := Nat.div_mul_le_self x B
    have h2 : x < (x / B + 1) * B := (Nat.div_lt_iff_lt_mul hB0).1 (Nat.lt_succ_self _)
    refine ⟨hx, by rw [Nat.mul_comm]; exact h1, by rw [Nat.mul_comm]; exact h2⟩

theorem mem_catTraces (trs : Nat → List BEvent) (e : BEvent) :
    ∀ m, e ∈ catTraces trs m ↔ ∃ kk, kk < m ∧ e ∈ trs kk := by
  intro m
  induction m with
  | zero => simp [catTraces]
  | succ m ih =>
    rw [catTraces, List.mem_append, ih]
    constructor
    · rintro (⟨kk, hk, he⟩ | he)
      · exact ⟨kk, by omega, he⟩
      · exact ⟨m, by omega, he⟩
    · rintro ⟨kk, hk, he⟩
      by_cases hkm : kk = m
      · subst hkm
        exact Or.inr he
      · exact Or.inl ⟨kk, by omega, he⟩

theorem catTraces_prefix (trs : Nat → List BEvent) (k : Nat) :
    ∀ nb, k ≤ nb → ∃ Q, catTraces trs nb = catTraces trs k ++ Q := by
  intro nb
  induction nb with
  | zero =>
    intro hk
    have : k = 0 := by omega
    subst this
    exact ⟨[], rfl⟩
  | succ nb ih =>
    intro hk
    by_cases hkn : k = nb + 1
    · subst hkn
      exact ⟨[], (List.append_nil _).symm⟩
    · obtain ⟨Q, hQ⟩ := ih (by omega)
      exact ⟨Q ++ trs nb, by rw [catTraces, hQ, List.append_assoc]⟩

/-- C6: `ProcessBatch` partitions the input indices into consecutive
batches of the configured size (`i` lies in batch `i / B` and no other),
and in any run trace — per-batch interleavings arbitrary — every item of
batch `k` has reached its terminal Outcome (its `finish` event) strictly
before any item of batch `k + 1` starts: the `wg.Wait()` barrier. -/
theorem ProcessBatch_barrier (B N : Nat) (trs : Nat → List BEvent)
    (k i j : Nat) (u v : List BEvent)
    (hB : 1 ≤ B)
    (hvalid : ∀ m, m < totalBatches B N → validBatchTrace B N m (trs m))
    (hi : i ∈ batchItems B N k) (hj : j ∈ batchItems B N (k + 1))
    (hsplit : batchRunTrace B N trs = u ++ BEvent.start j :: v) :
    BEvent.finish i ∈ u ∧
    (∀ (x m : Nat), x < N → (x ∈ batchItems B N m ↔ m = x / B)) := by
  have hB0 : 0 < B := hB
  refine ⟨?_, fun x m hx => batchItems_eq_div B N x m hB hx⟩
  obtain ⟨hjN, hj1, hj2⟩ := (mem_batchItems B N (k + 1) j).1 hj
  obtain ⟨hiN, hi1, hi2⟩ := (mem_batchItems B N k i).1 hi
  -- batch k + 1 is a real batch: k + 1 ≤ totalBatches B N
  have hk1nb : k + 1 ≤ totalBatches B N := by
    unfold totalBatches
    rw [Nat.le_div_iff_mul_le hB0]
    have hh : (k + 1) * B = B * k + B := by ring
    rw [hh]
    have := hj1
    have hBk : B * (k + 1) = B * k + B := by ring
    rw [hBk] at this
    omega
  -- the first k + 1 batch segments form a prefix of the run trace
  obtain ⟨Q, hQ⟩ := catTraces_prefix trs (k + 1) (totalBatches B N) hk1nb
  unfold batchRunTrace at hsplit
  rw [hQ] at hsplit
  -- finish i occurs in that prefix
  have hfin : BEvent.finish i ∈ catTraces trs (k + 1) :=
    (mem_catTraces trs (BEvent.finish i) (k + 1)).2
      ⟨k, Nat.lt_succ_self k, (hvalid k (by omega)).2 i hi⟩
  -- start j does not occur in that prefix
  have hstart : BEvent.start j ∉ catTraces trs (k + 1) := by
    intro hmem
    obtain ⟨m, hm, hem⟩ := (mem_catTraces trs (BEvent.start j) (k + 1)).1 hmem
    have hjm : (BEvent.start j).item ∈ batchItems B N m :=
      (hvalid m (by omega)).1 _ hem
    have h1 : m = j / B := (batchItems_eq_div B N j m hB hjN).1 hjm
    have h2 : k + 1 = j / B := (batchItems_eq_div B N j (k + 1) hB hjN).1 hj
    omega
  -- the prefix fits inside u
  have hlen : (catTraces trs (k + 1)).length ≤ u.length := by
    by_contra hlen
    push_neg at hlen
    have h1 : (catTraces trs (k + 1) ++ Q)[u.length]?
        = (catTraces trs (k + 1))[u.length]? := by
      rw [List.getElem?_append, if_pos hlen]
    have h2 : (u ++ BEvent.start j :: v)[u.length]?
        = some (BEvent.start j) := by
      rw [List.getElem?_append, if_neg (by omega), Nat.sub_self]
      simp
    rw [hsplit, h2] at h1
    exact hstart (List.getElem?_mem h1.symm)
  have htake : catTraces trs (k + 1) = u.take (catTraces trs (k + 1)).length := by
    have := congrArg (List.take (catTraces trs (k + 1)).length) hsplit
    rw [List.take_left, List.take_append_of_le_length hlen] at this
    exact this
  rw [htake] at hfin
  exact List.take_subset _ u hfin

/-- Per-batch traces of the C6 witness: batch `m` starts and finishes
its items in index order. -/
def demoTraces (m : Nat) : List BEvent :=
  (batchItems 1 2 m).map BEvent.start ++ (batchItems 1 2 m).map BEvent.finish

/-- C6 witness: two items, batch size 1; in the run trace the start of
item 1 (batch 1) is preceded by the finish of item 0 (batch 0). -/
theorem ProcessBatch_barrier_witness :
    BEvent.finish 0 ∈ [BEvent.start 0, BEvent.finish 0] ∧
    (∀ (x m : Nat), x < 2 → (x ∈ batchItems 1 2 m ↔ m = x / 1)) :=
  ProcessBatch_barrier 1 2 demoTraces 0 0 1
    [BEvent.start 0, BEvent.finish 0] [BEvent.finish 1]
    (by decide)
    (by
      intro m hm
      have hm2 : m < 2 := by simpa [totalBatches] using hm
      interval_cases m <;> exact ⟨by decide, by decide⟩)
    (by decide) (by decide) (by decide)

end AIProc
